import Mathlib

/-!
Verification development for the `git-util` repository: a shallow embedding in
Lean 4 of the core logic of the tool (command runner, repository locator,
branch cleaner, status aggregator, sync orchestrator), with theorems checking
the natural-language specification against the code.

The external process boundary (the `git` binary, `os/exec`) is modelled by
passing abstract outcomes (an `Except`-valued runner, or a `ProcOutcome`
record) into the embedded functions; everything on this side of that boundary
is translated directly from the Go source.
-/

namespace GitUtil

/-! ## Go string primitives

Models of the `strings`/`strconv` standard-library functions the source uses:
`strings.Split` (on a one-character separator, keeping empty fields),
`strings.TrimSpace`, `strings.HasPrefix`, `strings.Contains`,
`strings.Join`, `strings.ToLower`, and `strconv.Atoi`.  All are implemented
by structural recursion on character lists so that concrete instances reduce
inside the kernel. -/

/-- Whitespace recognized by Go's `unicode.IsSpace`, restricted to the ASCII
and Latin-1 cases that arise in command output (space, tab, newline, vertical
tab, form feed, carriage return, NEL, NBSP). -/
def isGoSpace (c : Char) : Bool :=
  c == ' ' || c == '\t' || c == '\n' || c == '\x0b' || c == '\x0c' || c == '\r' ||
  c == '\x85' || c == '\xa0'

/-- Trim `isGoSpace` characters from both ends: `strings.TrimSpace`. -/
def goTrim (s : String) : String :=
  String.mk (((s.toList.dropWhile isGoSpace).reverse.dropWhile isGoSpace).reverse)

/-- Split a character list at every occurrence of `sep`, keeping empty
fields; the accumulator holds the current field reversed. -/
def splitCharAux (sep : Char) : List Char → List Char → List (List Char)
  | [], acc => [acc.reverse]
  | c :: cs, acc =>
      if c == sep then acc.reverse :: splitCharAux sep cs []
      else splitCharAux sep cs (c :: acc)

/-- Go's `strings.Split` on a one-character separator. -/
def goSplit (sep : Char) (s : String) : List String :=
  (splitCharAux sep s.toList []).map String.mk

/-- Does the character list `cs` start with the character list `p`? -/
def startsWithChars : List Char → List Char → Bool
  | [], _ => true
  | _ :: _, [] => false
  | p :: ps, c :: cs => p == c && startsWithChars ps cs

/-- Go's `strings.HasPrefix s pre`. -/
def goStartsWith (s pre : String) : Bool :=
  startsWithChars pre.toList s.toList

/-- Does the character list contain `sub` as a contiguous run? -/
def containsChars (sub : List Char) : List Char → Bool
  | [] => sub.isEmpty
  | c :: cs => startsWithChars sub (c :: cs) || containsChars sub cs

/-- Go's `strings.Contains s sub`. -/
def goContains (s sub : String) : Bool :=
  containsChars sub.toList s.toList

/-- Go's `strings.Join parts " "`. -/
def joinSpace : List String → String
  | [] => ""
  | [s] => s
  | s :: rest => s ++ " " ++ joinSpace rest

/-- Go's `strings.ToLower`, restricted to the ASCII case mapping (the source
only compares against the ASCII literals `"fetch"` and `"pull"`). -/
def toLowerGo (s : String) : String :=
  String.mk (s.toList.map Char.toLower)

/-- Numeric value of a list of decimal digit characters. -/
def digitsToNat (l : List Char) : Nat :=
  l.foldl (fun a c => a * 10 + (c.toNat - 48)) 0

/-- Are all characters decimal digits? -/
def allDigits (l : List Char) : Bool :=
  l.all (fun c => c.isDigit)

/-- Largest value of Go's 64-bit `int`. -/
def int64Max : Int := 9223372036854775807

/-- Smallest value of Go's 64-bit `int`. -/
def int64Min : Int := -9223372036854775808

/-- Strip one leading sign character, returning (negative?, remaining digits). -/
def signSplit (cs : List Char) : Bool × List Char :=
  match cs with
  | [] => (false, [])
  | c :: r =>
      if c == '+' then (false, r)
      else if c == '-' then (true, r)
      else (false, cs)

/-- Signed numeric value of the digit part of `s`, before range saturation. -/
def atoiRaw (s : String) : Int :=
  if (signSplit s.toList).1 then -(Int.ofNat (digitsToNat (signSplit s.toList).2))
  else Int.ofNat (digitsToNat (signSplit s.toList).2)

/-- Go's `strconv.Atoi`: on a syntax error the returned value is `0`; on a
range error the value saturates at the 64-bit bounds.  (The Go call sites
discard the error with `_`, so only this returned value matters.) -/
def atoi (s : String) : Int :=
  if (signSplit s.toList).2.isEmpty || !allDigits (signSplit s.toList).2 then 0
  else if atoiRaw s > int64Max then int64Max
  else if atoiRaw s < int64Min then int64Min
  else atoiRaw s

/-- Is `s` a syntactically valid integer for `strconv.Atoi` (an optional sign
followed by at least one decimal digit)? -/
def atoiValid (s : String) : Bool :=
  let ds := (signSplit s.toList).2
  !ds.isEmpty && allDigits ds

/-! ## Command Runner (`pkg/gitops/helpers.go`, `RunGitCommand`) -/

/-- Outcome of one subprocess execution at the `os/exec` boundary: the bytes
captured in the stdout and stderr buffers, and `some e` when `cmd.Run()`
returned an error `e` (non-zero exit or failure to launch). -/
structure ProcOutcome where
  stdout : String
  stderr : String
  procErr : Option String
deriving Repr, DecidableEq

/-- RunGitCommand from `pkg/gitops/helpers.go`, as a function of the argument
list and the subprocess outcome: trim the captured stdout; on a process error
return it together with an error string formatted as
`command 'git <args joined>' failed: <err>\nStderr: <stderr>`. -/
def runGitCommand (args : List String) (proc : ProcOutcome) : String × Option String :=
  let output := goTrim proc.stdout
  match proc.procErr with
  | some e =>
      (output, some ("command \x27git " ++ joinSpace args ++ "\x27 failed: " ++ e ++
        "\nStderr: " ++ proc.stderr))
  | none => (output, none)

/-! ## Branch Cleaner filter (`cmd/root.go`, steps 3 and 4 of `rootCmd`) -/

/-- Steps 3–4 of `rootCmd.RunE`: split the merged-branch listing on newlines,
trim each line, drop empty lines, drop the current-branch line (leading
`"* "`), drop the target branch itself, and keep the rest in order. -/
def filterMergedBranches (mergedBranchesOutput : String) (targetMainBranch : String) :
    List String :=
  (goSplit '\n' mergedBranchesOutput).foldl (fun acc line =>
    let branchName := goTrim line
    if branchName == "" then acc
    else if goStartsWith branchName "* " then acc
    else if branchName == targetMainBranch then acc
    else acc ++ [branchName]) []

/-! ## Status Aggregator (`cmd/status.go`, per-repository body of `statusCmd`) -/

/-- Upstream classification of one repository.  Each constructor tags exactly
one branch of the per-repository divergence logic in `statusCmd.RunE`:
`NoUpstream` and `CmdError` the two arms of the rev-list error branch,
`ParseError` the `len(parts) != 2` arm, and the other four the arms of the
ahead/behind comparison. -/
inductive UpstreamState where
  | Synced
  | Ahead
  | Behind
  | Diverged
  | NoUpstream
  | CmdError
  | ParseError
deriving Repr, DecidableEq

/-- Result of the divergence half of the status check: the `ahead` and
`behind` counters, the branch taken, and the `upstreamStatus` suffix string
the code builds. -/
structure RevStatus where
  ahead : Int
  behind : Int
  state : UpstreamState
  upstreamStatus : String
deriving Repr, DecidableEq

/-- Lines 95–120 of `cmd/status.go`: classify the outcome of
`git rev-list --left-right --count HEAD...@{u}`.  On command failure, match
the error text against the two known no-upstream substrings; on success,
trim, split on tab, and when exactly two fields result convert them with
`strconv.Atoi` (conversion errors discarded, leaving the counter at 0) and
compare the counts.  Each branch also records the `upstreamStatus` string the
code formats there. -/
def classifyRev (revRes : Except String String) : RevStatus :=
  match revRes with
  | .error e =>
      if goContains e "no upstream configured" || goContains e "unknown revision" then
        ⟨0, 0, .NoUpstream, " [No Upstream]"⟩
      else
        ⟨0, 0, .CmdError, " [Error]"⟩
  | .ok revOutput =>
      match goSplit '\t' (goTrim revOutput) with
      | [p0, p1] =>
          let ahead := atoi p0
          let behind := atoi p1
          if ahead > 0 ∧ behind > 0 then
            ⟨ahead, behind, .Diverged,
              " [Ahead " ++ toString ahead ++ ", Behind " ++ toString behind ++ "]"⟩
          else if ahead > 0 then
            ⟨ahead, behind, .Ahead, " [Ahead " ++ toString ahead ++ "]"⟩
          else if behind > 0 then
            ⟨ahead, behind, .Behind, " [Behind " ++ toString behind ++ "]"⟩
          else
            ⟨ahead, behind, .Synced, ""⟩
      | _ => ⟨0, 0, .ParseError, " [Error Parsing Revs]"⟩

/-- Lines 80–88 of `cmd/status.go`: the repository is dirty when
`git status --porcelain=v1` fails (conservatively, with a warning) or
returns non-empty (trimmed) output. -/
def isDirty (statusRes : Except String String) : Bool :=
  match statusRes with
  | .error _ => true
  | .ok statusOutput => statusOutput != ""

/-- Per-repository record produced by the Status Aggregator. -/
structure RepoStatus where
  dirty : Bool
  rev : RevStatus
  finalStatus : String
deriving Repr, DecidableEq

/-- The per-repository body of `statusCmd.RunE` (lines 79–134), as a function
of the outcomes of its two subprocess invocations: compute the dirty flag and
the divergence classification independently, then combine them into the
printed status line, with the `Dirty` prefix taking precedence. -/
def repoStatus (statusRes revRes : Except String String) : RepoStatus :=
  let d := isDirty statusRes
  let r := classifyRev revRes
  let finalStatus :=
    if d then "Dirty" ++ r.upstreamStatus
    else if r.upstreamStatus != "" && !(goStartsWith r.upstreamStatus " [Error") &&
        r.upstreamStatus != " [No Upstream]" then "Clean" ++ r.upstreamStatus
    else if r.upstreamStatus != "" then "Clean" ++ r.upstreamStatus
    else "Clean"
  ⟨d, r, finalStatus⟩

/-! ## Sync Orchestrator (`cmd/sync.go`, `syncCmd`) -/

/-- An observable side effect of `syncCmd.RunE`: the repository-discovery
walk, or one subprocess invocation with its full argument list. -/
inductive SyncEvent where
  | scan
  | run (args : List String)
deriving Repr, DecidableEq

/-- Success/failure counters accumulated by the sync loop. -/
structure SyncSummary where
  successCount : Nat
  failCount : Nat
deriving Repr, DecidableEq

/-- Argument list built for one repository in the sync loop (lines 92–100 of
`cmd/sync.go`): the per-action git arguments with `-C <repoPath>` prepended. -/
def syncArgsFor (action : String) (repoPath : String) : List String :=
  ["-C", repoPath] ++ (if action == "fetch" then ["fetch", "--prune"] else ["pull", "--ff-only"])

/-- Did an `Except`-valued runner call fail? -/
def isErr : Except ε α → Bool
  | .error _ => true
  | .ok _ => false

/-- One iteration of the per-repository loop of `syncCmd.RunE` (lines
84–118): invoke the action on this repository, bump the matching counter,
and record the invocation event. -/
def syncStep (runner : List String → Except String String) (action : String)
    (acc : SyncSummary × List SyncEvent) (repoPath : String) :
    SyncSummary × List SyncEvent :=
  match runner (syncArgsFor action repoPath) with
  | .error _ =>
      (⟨acc.1.successCount, acc.1.failCount + 1⟩,
        acc.2 ++ [SyncEvent.run (syncArgsFor action repoPath)])
  | .ok _ =>
      (⟨acc.1.successCount + 1, acc.1.failCount⟩,
        acc.2 ++ [SyncEvent.run (syncArgsFor action repoPath)])

/-- The per-repository loop of `syncCmd.RunE` (lines 82–118), over an
abstract runner standing for `runGitCommand`: process every repository in
order, irrespective of earlier failures. -/
def syncLoop (runner : List String → Except String String) (action : String)
    (repos : List String) : SyncSummary × List SyncEvent :=
  repos.foldl (syncStep runner action) (⟨0, 0⟩, [])

/-- The action-validation and processing part of `syncCmd.RunE` (lines
47–126): lower-case the action flag and reject anything other than "fetch"
or "pull" before the repository walk; otherwise scan (the discovered list is
passed in as `repos`) and run the loop.  The second component is the ordered
trace of side effects. -/
def syncRunE (runner : List String → Except String String) (repos : List String)
    (syncAction : String) : Except String SyncSummary × List SyncEvent :=
  let action := toLowerGo syncAction
  if action != "fetch" && action != "pull" then
    (.error ("invalid action \x27" ++ syncAction ++ "\x27: must be \x27fetch\x27 or \x27pull\x27"),
      [])
  else
    let r := syncLoop runner action repos
    (.ok r.1, SyncEvent.scan :: r.2)

/-! ## Branch Cleaner action phase (`cmd/root.go`, step 5 of `rootCmd`) -/

/-- State accumulated by the deletion loop of `rootCmd.RunE` (lines 84–103):
the "[Dry Run] Would attempt to delete branch: ..." report lines, the
argument lists of the mutating subprocess invocations performed, and the
success/failure counters. -/
structure CleanReport where
  dryRunLines : List String
  mutatingCalls : List (List String)
  successCount : Nat
  failCount : Nat
deriving Repr, DecidableEq

/-- One iteration of the deletion loop of `rootCmd.RunE` (lines 86–103): in
dry-run mode report the branch and count it as a success without invoking
anything; otherwise invoke `git branch -d <branch>` and count the outcome. -/
def deletionStep (runner : List String → Except String String) (dryRun : Bool)
    (acc : CleanReport) (branch : String) : CleanReport :=
  if dryRun then
    ⟨acc.dryRunLines ++ ["[Dry Run] Would attempt to delete branch: " ++ branch],
      acc.mutatingCalls, acc.successCount + 1, acc.failCount⟩
  else
    match runner ["branch", "-d", branch] with
    | .error _ =>
        ⟨acc.dryRunLines, acc.mutatingCalls ++ [["branch", "-d", branch]],
          acc.successCount, acc.failCount + 1⟩
    | .ok _ =>
        ⟨acc.dryRunLines, acc.mutatingCalls ++ [["branch", "-d", branch]],
          acc.successCount + 1, acc.failCount⟩

/-- The deletion loop of `rootCmd.RunE` (lines 86–103): process every
candidate branch independently, a failure on one not stopping the rest. -/
def deletionLoop (runner : List String → Except String String) (dryRun : Bool)
    (branchesToProcess : List String) : CleanReport :=
  branchesToProcess.foldl (deletionStep runner dryRun) ⟨[], [], 0, 0⟩

/-- Outcome of step 5 of `rootCmd.RunE` (lines 70–115).  The source returns
`nil` on every path of this step, so there is no error constructor: the
candidate list is empty, or it is only listed (no `--delete`), or the
deletion loop ran and a summary was printed. -/
inductive CleanOutcome where
  | noCandidates
  | listedOnly (branches : List String)
  | processed (report : CleanReport) (summaryLine : String)
deriving Repr, DecidableEq

/-- Step 5 of `rootCmd.RunE`: report-only without the delete flag; with it,
run the deletion loop and format the summary (the dry-run summary reports the
success counter, which dry-run increments once per candidate). -/
def branchCleanAct (runner : List String → Except String String)
    (deleteBranches dryRun : Bool) (branchesToProcess : List String) : CleanOutcome :=
  if branchesToProcess.length == 0 then .noCandidates
  else if !deleteBranches then .listedOnly branchesToProcess
  else
    let r := deletionLoop runner dryRun branchesToProcess
    let summary :=
      if dryRun then
        "Dry run complete. " ++ toString r.successCount ++
          " branches would have been targeted for deletion."
      else
        "Successfully deleted: " ++ toString r.successCount ++
          "\nFailed to delete:   " ++ toString r.failCount
    .processed r summary

/-! ## Repository Locator (`pkg/gitops/helpers.go`, `FindGitRepos`)

The directory tree is a mutual inductive (an entry / a list of sibling
entries).  `unreadable` stands for a directory whose contents cannot be read
during the walk (`os.ReadDir` fails), the per-entry traversal error case.
Paths are segment lists; an entry's path is its parent's path with its name
appended, so `filepath.Dir` is `List.dropLast`. -/

mutual
inductive FSEntry where
  | file (name : String)
  | unreadable (name : String)
  | dir (name : String) (children : FSList)
inductive FSList where
  | nil
  | cons (head : FSEntry) (tail : FSList)
end

/-- What a `WalkDir` callback can observe about an entry. -/
structure EntryInfo where
  name : String
  isDir : Bool

/-- Result of one callback invocation: `proceed` (a nil error), `skipdir`
(`filepath.SkipDir`), or `abort` (any other non-nil error, which `WalkDir`
propagates to its caller). -/
inductive CbOut where
  | proceed
  | skipdir
  | abort (msg : String)

mutual
/-- The recursion of Go's `filepath.WalkDir` on one entry, generic in the
state-passing callback `f` (state, full path, entry info, access error).
Mirrors `walkDir` in Go's `path/filepath`: call the callback; on `SkipDir`
for a directory return nil without descending; on a read failure of a
directory's contents call the callback a second time with the error; for a
readable directory walk the children. -/
def walkEntry (f : σ → List String → EntryInfo → Option String → σ × CbOut)
    (s : σ) (parent : List String) : FSEntry → σ × CbOut
  | .file n => f s (parent ++ [n]) ⟨n, false⟩ none
  | .unreadable n =>
      match f s (parent ++ [n]) ⟨n, true⟩ none with
      | (s1, .proceed) =>
          match f s1 (parent ++ [n]) ⟨n, true⟩ (some "permission denied") with
          | (s2, .proceed) => (s2, .proceed)
          | (s2, .skipdir) => (s2, .proceed)
          | (s2, .abort m) => (s2, .abort m)
      | (s1, .skipdir) => (s1, .proceed)
      | (s1, .abort m) => (s1, .abort m)
  | .dir n cs =>
      match f s (parent ++ [n]) ⟨n, true⟩ none with
      | (s1, .proceed) => walkList f s1 (parent ++ [n]) cs
      | (s1, .skipdir) => (s1, .proceed)
      | (s1, .abort m) => (s1, .abort m)

/-- The loop of Go's `walkDir` over a directory's entries: a `SkipDir`
bubbling up from a child (only possible via a non-directory child) breaks
the loop; any other error aborts; otherwise continue with the next child. -/
def walkList (f : σ → List String → EntryInfo → Option String → σ × CbOut)
    (s : σ) (parent : List String) : FSList → σ × CbOut
  | .nil => (s, .proceed)
  | .cons c rest =>
      match walkEntry f s parent c with
      | (s1, .proceed) => walkList f s1 parent rest
      | (s1, .skipdir) => (s1, .proceed)
      | (s1, .abort m) => (s1, .abort m)
end

/-- The fixed exclusion set of `FindGitRepos` (line 60 of
`pkg/gitops/helpers.go`). -/
def isExcludedName (n : String) : Bool :=
  n == "vendor" || n == "node_modules" || n == "target" || n == "build"

/-- The callback literal of `FindGitRepos` (lines 50–64 of
`pkg/gitops/helpers.go`): on a traversal error warn and skip the subtree; on
a directory named `.git` record its parent and skip; on an excluded
directory skip; otherwise continue.  The state is the `repos` slice. -/
def gitRepoCb (repos : List (List String)) (path : List String) (info : EntryInfo)
    (accessErr : Option String) : List (List String) × CbOut :=
  match accessErr with
  | some _ => (repos, .skipdir)
  | none =>
      if info.isDir && info.name == ".git" then (repos ++ [path.dropLast], .skipdir)
      else if info.isDir && isExcludedName info.name then (repos, .skipdir)
      else (repos, .proceed)

/-- FindGitRepos from `pkg/gitops/helpers.go`: run the walk from the root
entry (whose own path is `rootParent ++ [root.name]`) and return the
collected repository paths, or the walk-level error if the walk aborted. -/
def findGitRepos (rootParent : List String) (root : FSEntry) :
    Except String (List (List String)) :=
  match walkEntry gitRepoCb [] rootParent root with
  | (_, .abort m) => .error m
  | (repos, _) => .ok repos

mutual
/-- Straight-line recursive characterization of what the walk collects: a
`.git` directory (readable or not) contributes its parent path and is not
descended into; an excluded directory contributes nothing; any other
directory contributes its children's repositories. -/
def reposOf (parent : List String) : FSEntry → List (List String)
  | .file _ => []
  | .unreadable n => if n == ".git" then [parent] else []
  | .dir n cs =>
      if n == ".git" then [parent]
      else if isExcludedName n then []
      else reposOfList (parent ++ [n]) cs

def reposOfList (parent : List String) : FSList → List (List String)
  | .nil => []
  | .cons c rest => reposOf parent c ++ reposOfList parent rest
end

mutual
/-- Full paths of all version-control metadata folders (directories named
`.git`) anywhere in the tree. -/
def gitFolders (parent : List String) : FSEntry → List (List String)
  | .file _ => []
  | .unreadable n => if n == ".git" then [parent ++ [n]] else []
  | .dir n cs =>
      (if n == ".git" then [parent ++ [n]] else []) ++ gitFoldersList (parent ++ [n]) cs

def gitFoldersList (parent : List String) : FSList → List (List String)
  | .nil => []
  | .cons c rest => gitFolders parent c ++ gitFoldersList parent rest
end

mutual
/-- Does the tree contain any metadata folder? -/
def hasGit : FSEntry → Bool
  | .file _ => false
  | .unreadable n => n == ".git"
  | .dir n cs => n == ".git" || hasGitList cs

def hasGitList : FSList → Bool
  | .nil => false
  | .cons c rest => hasGit c || hasGitList rest
end

mutual
/-- No metadata folder is nested inside another metadata folder. -/
def noNestedGit : FSEntry → Bool
  | .file _ => true
  | .unreadable _ => true
  | .dir n cs => if n == ".git" then !hasGitList cs else noNestedGitList cs

def noNestedGitList : FSList → Bool
  | .nil => true
  | .cons c rest => noNestedGit c && noNestedGitList rest
end

mutual
/-- No metadata folder lies inside a subtree rooted at an excluded directory
(vendor, node_modules, target, build). -/
def noGitUnderExcluded : FSEntry → Bool
  | .file _ => true
  | .unreadable _ => true
  | .dir n cs => if isExcludedName n then !hasGitList cs else noGitUnderExcludedList cs

def noGitUnderExcludedList : FSList → Bool
  | .nil => true
  | .cons c rest => noGitUnderExcluded c && noGitUnderExcludedList rest
end

/-- A tree with two repositories at non-overlapping paths. -/
def exTree : FSEntry :=
  .dir "work"
    (.cons (.dir "alpha" (.cons (.dir ".git" .nil) .nil))
      (.cons (.dir "beta" (.cons (.dir ".git" .nil) .nil)) .nil))

/-- A tree whose only metadata folder lies under a `vendor` directory. -/
def cexTree : FSEntry :=
  .dir "root" (.cons (.dir "vendor" (.cons (.dir ".git" .nil) .nil)) .nil)

end GitUtil

namespace GitUtil

/-- Helper: dropping the last element of a path that ends in one segment. -/
theorem dropLast_app (l : List α) (a : α) : (l ++ [a]).dropLast = l := by
  simp

mutual
/-- Helper: the `FindGitRepos` walk never aborts and collects exactly
`reposOf` (entry case). -/
theorem walkEntry_git (e : FSEntry) : ∀ (s : List (List String)) (parent : List String),
    walkEntry gitRepoCb s parent e = (s ++ reposOf parent e, CbOut.proceed) := by
  cases e with
  | file n =>
      intro s parent
      simp [walkEntry, gitRepoCb, reposOf]
  | unreadable n =>
      intro s parent
      rcases hgit : (n == ".git") with _ | _
      · rcases hexc : isExcludedName n with _ | _
        · simp [walkEntry, gitRepoCb, reposOf, hgit, hexc]
        · simp [walkEntry, gitRepoCb, reposOf, hgit, hexc]
      · simp [walkEntry, gitRepoCb, reposOf, hgit, dropLast_app]
  | dir n cs =>
      intro s parent
      rcases hgit : (n == ".git") with _ | _
      · rcases hexc : isExcludedName n with _ | _
        · simp only [walkEntry, gitRepoCb, Bool.true_and, hgit, hexc,
            Bool.false_eq_true, if_false]
          rw [walkList_git cs]
          simp [reposOf, hgit, hexc]
        · simp [walkEntry, gitRepoCb, reposOf, hgit, hexc]
      · simp [walkEntry, gitRepoCb, reposOf, hgit, dropLast_app]

/-- Helper: the `FindGitRepos` walk never aborts and collects exactly
`reposOf` (sibling-list case). -/
theorem walkList_git (l : FSList) : ∀ (s : List (List String)) (parent : List String),
    walkList gitRepoCb s parent l = (s ++ reposOfList parent l, CbOut.proceed) := by
  cases l with
  | nil =>
      intro s parent
      simp [walkList, reposOfList]
  | cons c rest =>
      intro s parent
      simp only [walkList]
      rw [walkEntry_git c]
      simp only []
      rw [walkList_git rest]
      simp [reposOfList, List.append_assoc]
end

mutual
/-- Helper: a subtree without metadata folders contributes none (entry). -/
theorem gitFolders_nil (e : FSEntry) (h : hasGit e = false) :
    ∀ parent, gitFolders parent e = [] := by
  cases e with
  | file n => intro parent; rfl
  | unreadable n =>
      intro parent
      have hgit : (n == ".git") = false := h
      simp [gitFolders, hgit]
  | dir n cs =>
      intro parent
      have h2 : ¬ n = ".git" ∧ hasGitList cs = false := by
        have := h
        simp [hasGit] at this
        exact this
      simp [gitFolders, h2.1, gitFoldersList_nil cs h2.2]

/-- Helper: a subtree without metadata folders contributes none (list). -/
theorem gitFoldersList_nil (l : FSList) (h : hasGitList l = false) :
    ∀ parent, gitFoldersList parent l = [] := by
  cases l with
  | nil => intro parent; rfl
  | cons c rest =>
      intro parent
      have h2 : hasGit c = false ∧ hasGitList rest = false := by
        have := h
        simp [hasGitList] at this
        exact this
      simp [gitFoldersList, gitFolders_nil c h2.1, gitFoldersList_nil rest h2.2]
end

mutual
/-- Helper: under the no-nesting and no-excluded-subtree conditions, the
walk collects exactly the parents of the metadata folders (entry). -/
theorem reposOf_eq (e : FSEntry) :
    noNestedGit e = true → noGitUnderExcluded e = true →
    ∀ parent, reposOf parent e = (gitFolders parent e).map List.dropLast := by
  cases e with
  | file n => intro _ _ parent; rfl
  | unreadable n =>
      intro _ _ parent
      rcases hgit : (n == ".git") with _ | _ <;>
        simp [reposOf, gitFolders, hgit, dropLast_app]
  | dir n cs =>
      intro h1 h2 parent
      rcases hgit : (n == ".git") with _ | _
      · rcases hexc : isExcludedName n with _ | _
        · have h1b : noNestedGitList cs = true := by
            have := h1
            simp [noNestedGit, hgit] at this
            exact this
          have h2b : noGitUnderExcludedList cs = true := by
            have := h2
            simp [noGitUnderExcluded, hexc] at this
            exact this
          simp [reposOf, gitFolders, hgit, hexc]
          exact reposOfList_eq cs h1b h2b (parent ++ [n])
        · have hng : hasGitList cs = false := by
            have := h2
            simp [noGitUnderExcluded, hexc] at this
            exact this
          simp [reposOf, gitFolders, hgit, hexc, gitFoldersList_nil cs hng]
      · have hng : hasGitList cs = false := by
          have := h1
          simp [noNestedGit, hgit] at this
          exact this
        simp [reposOf, gitFolders, hgit, gitFoldersList_nil cs hng, dropLast_app]

/-- Helper: under the no-nesting and no-excluded-subtree conditions, the
walk collects exactly the parents of the metadata folders (list). -/
theorem reposOfList_eq (l : FSList) :
    noNestedGitList l = true → noGitUnderExcludedList l = true →
    ∀ parent, reposOfList parent l = (gitFoldersList parent l).map List.dropLast := by
  cases l with
  | nil => intro _ _ parent; rfl
  | cons c rest =>
      intro h1 h2 parent
      have h1b : noNestedGit c = true ∧ noNestedGitList rest = true := by
        have := h1
        simp [noNestedGitList] at this
        exact this
      have h2b : noGitUnderExcluded c = true ∧ noGitUnderExcludedList rest = true := by
        have := h2
        simp [noGitUnderExcludedList] at this
        exact this
      simp only [reposOfList, gitFoldersList, List.map_append]
      rw [reposOf_eq c h1b.1 h2b.1 parent, reposOfList_eq rest h1b.2 h2b.2 parent]
end

/-- Claim C1 (amended): for every directory tree whose metadata folders are
at non-overlapping paths and none of which lies under an excluded directory
(vendor, node_modules, target, build), FindGitRepos succeeds and returns
exactly one path per metadata folder, each returned path being the parent
directory of one of the metadata folders. -/
theorem locator_counts_repos (root : FSEntry) (rootParent : List String)
    (hnest : noNestedGit root = true) (hexcl : noGitUnderExcluded root = true) :
    ∃ l, findGitRepos rootParent root = Except.ok l ∧
      l.length = (gitFolders rootParent root).length ∧
      ∀ q ∈ l, ∃ g ∈ gitFolders rootParent root, q = g.dropLast := by
  refine ⟨reposOf rootParent root, ?_, ?_, ?_⟩
  · unfold findGitRepos
    rw [walkEntry_git root [] rootParent]
    simp
  · rw [reposOf_eq root hnest hexcl rootParent]
    simp
  · intro q hq
    rw [reposOf_eq root hnest hexcl rootParent] at hq
    obtain ⟨g, hg, rfl⟩ := List.mem_map.mp hq
    exact ⟨g, hg, rfl⟩

/-- Witness for C1 (amended) at a tree with two repositories. -/
theorem locator_counts_repos_witness :
    ∃ l, findGitRepos [] exTree = Except.ok l ∧
      l.length = (gitFolders [] exTree).length ∧
      ∀ q ∈ l, ∃ g ∈ gitFolders [] exTree, q = g.dropLast :=
  locator_counts_repos exTree [] (by decide) (by decide)

/-- Counterexample to C1 as stated: `cexTree` contains one metadata folder
(at a non-overlapping path, no nesting), yet FindGitRepos returns zero
paths, because the folder lies under a `vendor` directory whose subtree the
walk skips. -/
theorem locator_misses_repo_under_excluded :
    noNestedGit cexTree = true ∧
    (gitFolders [] cexTree).length = 1 ∧
    findGitRepos [] cexTree = Except.ok [] :=
  ⟨rfl, rfl, rfl⟩

/-- Claim C9: FindGitRepos returns a nil error on every tree: each per-entry
traversal error is answered with a skip of that subtree, so the walk never
aborts and the walk-level error branch is unreachable. -/
theorem find_git_repos_never_errors (rootParent : List String) (root : FSEntry) :
    ∃ l, findGitRepos rootParent root = Except.ok l := by
  refine ⟨reposOf rootParent root, ?_⟩
  unfold findGitRepos
  rw [walkEntry_git root [] rootParent]
  simp

/-- Claim C4: for the merged-branch listing
`"* main\n  feature-a\n  feature-b\n  main\n"` with target branch `"main"`,
the Branch Cleaner's filter produces exactly `["feature-a", "feature-b"]`:
empty lines, the current-branch line and the target-branch line are
discarded and the remaining order is preserved. -/
theorem filter_merged_branches_example :
    filterMergedBranches "* main\n  feature-a\n  feature-b\n  main\n" "main" =
      ["feature-a", "feature-b"] := by
  decide

/-- Helper: `strconv.Atoi` on a nonempty all-digit string within the 64-bit
range returns the string's numeric value. -/
theorem atoi_digits (s : String) (a : Nat) (hne : s.toList ≠ [])
    (hd : allDigits s.toList = true) (hval : digitsToNat s.toList = a)
    (hle : (a : Int) ≤ int64Max) : atoi s = a := by
  obtain ⟨c, cs, hcs⟩ : ∃ c cs, s.toList = c :: cs := by
    cases h : s.toList with
    | nil => exact absurd h hne
    | cons c cs => exact ⟨c, cs, rfl⟩
  have hc : c.isDigit = true := by
    have hd2 := hd
    rw [hcs] at hd2
    simp [allDigits] at hd2
    exact hd2.1
  have h1 : (c == '+') = false := by
    by_cases h : c = '+'
    · subst h; exact absurd hc (by decide)
    · simp [h]
  have h2 : (c == '-') = false := by
    by_cases h : c = '-'
    · subst h; exact absurd hc (by decide)
    · simp [h]
  have hsign : signSplit s.toList = (false, s.toList) := by
    rw [hcs]; simp [signSplit, h1, h2]
  have hE : s.toList.isEmpty = false := by rw [hcs]; rfl
  have hraw : atoiRaw s = (a : Int) := by
    unfold atoiRaw
    rw [hsign]
    dsimp only
    rw [hval]
    simp
  have hmax : ¬ ((a : Int) > int64Max) := not_lt.mpr hle
  have hmin : ¬ ((a : Int) < int64Min) := by unfold int64Min; omega
  unfold atoi
  rw [hsign]
  simp only [hE, hd, Bool.not_true, Bool.or_self, hraw, if_neg hmax, if_neg hmin,
    Bool.false_eq_true, if_false]

/-- Helper: `strconv.Atoi` on a syntactically invalid string returns 0. -/
theorem atoi_invalid (s : String) (h : atoiValid s = false) : atoi s = 0 := by
  have h2 : (signSplit s.toList).2.isEmpty = true ∨ allDigits (signSplit s.toList).2 = false := by
    unfold atoiValid at h
    rcases hE : ((signSplit s.toList).2).isEmpty with _ | _
    · right
      rcases hD : allDigits (signSplit s.toList).2 with _ | _
      · rfl
      · exfalso
        have hb : (!(signSplit s.toList).2.isEmpty && allDigits (signSplit s.toList).2) = false := h
        rw [hE, hD] at hb
        exact absurd hb (by decide)
    · left; rfl
  unfold atoi
  rcases h2 with h2 | h2 <;> rw [h2] <;> simp

/-- Helper: whatever branch the divergence classification takes on a
two-field split, the stored counters are the `Atoi` values of the fields. -/
theorem classifyRev_two_fields (out p0 p1 : String)
    (hsplit : goSplit '\t' (goTrim out) = [p0, p1]) :
    (classifyRev (Except.ok out)).ahead = atoi p0 ∧
    (classifyRev (Except.ok out)).behind = atoi p1 := by
  simp only [classifyRev, hsplit]
  split_ifs <;> exact ⟨rfl, rfl⟩

/-- Claim C2: for every divergence-query output that splits on a tab into
exactly two numeric fields a and b, the Status Aggregator classifies the
repository as Diverged when a > 0 and b > 0, Ahead when only a > 0, Behind
when only b > 0, and Synced when both are zero, with aheadCount = a and
behindCount = b; in particular "2\t0" yields Ahead with aheadCount=2 and
behindCount=0, "0\t3" yields Behind, "4\t1" yields Diverged, and "0\t0"
yields Synced. -/
theorem status_divergence_classification (out s1 s2 : String) (a b : Nat)
    (hsplit : goSplit '\t' (goTrim out) = [s1, s2])
    (h1ne : s1.toList ≠ []) (h1d : allDigits s1.toList = true)
    (h1v : digitsToNat s1.toList = a) (h1le : (a : Int) ≤ int64Max)
    (h2ne : s2.toList ≠ []) (h2d : allDigits s2.toList = true)
    (h2v : digitsToNat s2.toList = b) (h2le : (b : Int) ≤ int64Max) :
    (classifyRev (Except.ok out)).ahead = (a : Int) ∧
    (classifyRev (Except.ok out)).behind = (b : Int) ∧
    (classifyRev (Except.ok out)).state =
      (if 0 < a ∧ 0 < b then UpstreamState.Diverged
       else if 0 < a then UpstreamState.Ahead
       else if 0 < b then UpstreamState.Behind
       else UpstreamState.Synced) ∧
    classifyRev (Except.ok "2\t0") = ⟨2, 0, .Ahead, " [Ahead 2]"⟩ ∧
    classifyRev (Except.ok "0\t3") = ⟨0, 3, .Behind, " [Behind 3]"⟩ ∧
    classifyRev (Except.ok "4\t1") = ⟨4, 1, .Diverged, " [Ahead 4, Behind 1]"⟩ ∧
    classifyRev (Except.ok "0\t0") = ⟨0, 0, .Synced, ""⟩ := by
  have ha := atoi_digits s1 a h1ne h1d h1v h1le
  have hb := atoi_digits s2 b h2ne h2d h2v h2le
  obtain ⟨hA, hB⟩ := classifyRev_two_fields out s1 s2 hsplit
  refine ⟨by rw [hA, ha], by rw [hB, hb], ?_, by decide, by decide, by decide, by decide⟩
  simp only [classifyRev, hsplit, ha, hb]
  split_ifs <;> first | rfl | omega

/-- Witness for C2 at the divergence output "4\t1". -/
theorem status_divergence_classification_witness :
    (classifyRev (Except.ok "4\t1")).ahead = ((4 : Nat) : Int) ∧
    (classifyRev (Except.ok "4\t1")).behind = ((1 : Nat) : Int) ∧
    (classifyRev (Except.ok "4\t1")).state =
      (if 0 < (4 : Nat) ∧ 0 < (1 : Nat) then UpstreamState.Diverged
       else if 0 < (4 : Nat) then UpstreamState.Ahead
       else if 0 < (1 : Nat) then UpstreamState.Behind
       else UpstreamState.Synced) ∧
    classifyRev (Except.ok "2\t0") = ⟨2, 0, .Ahead, " [Ahead 2]"⟩ ∧
    classifyRev (Except.ok "0\t3") = ⟨0, 3, .Behind, " [Behind 3]"⟩ ∧
    classifyRev (Except.ok "4\t1") = ⟨4, 1, .Diverged, " [Ahead 4, Behind 1]"⟩ ∧
    classifyRev (Except.ok "0\t0") = ⟨0, 0, .Synced, ""⟩ :=
  status_divergence_classification "4\t1" "4" "1" 4 1 (by decide) (by decide) (by decide)
    (by decide) (by decide) (by decide) (by decide) (by decide) (by decide)

/-- Claim C3: a repository is marked dirty exactly when the working-tree
status query fails or returns non-empty output, and the dirty flag is
independent of (unchanged by) the divergence classification computed for the
same repository. -/
theorem dirty_flag_spec (statusRes revRes revRes2 : Except String String) :
    ((repoStatus statusRes revRes).dirty = true ↔
      (∃ e, statusRes = Except.error e) ∨ (∃ o, statusRes = Except.ok o ∧ o ≠ "")) ∧
    (repoStatus statusRes revRes).dirty = isDirty statusRes ∧
    (repoStatus statusRes revRes).dirty = (repoStatus statusRes revRes2).dirty := by
  refine ⟨?_, rfl, rfl⟩
  show isDirty statusRes = true ↔ _
  cases statusRes with
  | error e => simp [isDirty]
  | ok o => simp [isDirty]

/-- Claim C10: with a two-field tab split, a field that is not a valid
integer is silently converted to 0; in particular "x\ty" is classified
Synced with both counts 0, not as a parse error. -/
theorem atoi_error_silently_ignored (out p0 p1 : String)
    (hsplit : goSplit '\t' (goTrim out) = [p0, p1]) :
    (atoiValid p0 = false → (classifyRev (Except.ok out)).ahead = 0) ∧
    (atoiValid p1 = false → (classifyRev (Except.ok out)).behind = 0) ∧
    classifyRev (Except.ok "x\ty") = ⟨0, 0, .Synced, ""⟩ := by
  obtain ⟨hA, hB⟩ := classifyRev_two_fields out p0 p1 hsplit
  exact ⟨fun h => by rw [hA, atoi_invalid p0 h],
         fun h => by rw [hB, atoi_invalid p1 h],
         by decide⟩

/-- Witness for C10 at the divergence output "x\ty". -/
theorem atoi_error_silently_ignored_witness :
    (atoiValid "x" = false → (classifyRev (Except.ok "x\ty")).ahead = 0) ∧
    (atoiValid "y" = false → (classifyRev (Except.ok "x\ty")).behind = 0) ∧
    classifyRev (Except.ok "x\ty") = ⟨0, 0, .Synced, ""⟩ :=
  atoi_error_silently_ignored "x\ty" "x" "y" (by decide)

/-- Helper: lengths of a filter and its complement add up to the length. -/
theorem length_filter_split (p : α → Bool) (l : List α) :
    (l.filter (fun a => !(p a))).length + (l.filter p).length = l.length := by
  induction l with
  | nil => rfl
  | cons a t ih =>
      rcases h : p a with _ | _ <;> simp [List.filter_cons, h] <;> omega

/-- Helper: the sync loop with an arbitrary starting accumulator. -/
theorem syncLoop_aux (runner : List String → Except String String) (action : String)
    (repos : List String) : ∀ acc : SyncSummary × List SyncEvent,
    repos.foldl (syncStep runner action) acc =
      (⟨acc.1.successCount +
          (repos.filter (fun p => !(isErr (runner (syncArgsFor action p))))).length,
        acc.1.failCount +
          (repos.filter (fun p => isErr (runner (syncArgsFor action p)))).length⟩,
        acc.2 ++ repos.map (fun p => SyncEvent.run (syncArgsFor action p))) := by
  induction repos with
  | nil => intro acc; simp
  | cons q rest ih =>
      intro acc
      rw [List.foldl_cons, ih]
      rcases h : runner (syncArgsFor action q) with e | o <;>
        simp [syncStep, h, isErr, List.filter_cons, Prod.ext_iff, SyncSummary.mk.injEq,
          List.append_assoc] <;>
        omega

/-- Claim C5: a failed sync on one repository does not prevent the action
being attempted on every subsequent repository (the event trace contains one
invocation per repository, in order, whatever the runner returns), the
reported failed count equals the number of repositories whose invocation
returned an error, and succeeded plus failed equals the number of
repositories. -/
theorem sync_failure_isolation (runner : List String → Except String String)
    (action : String) (repos : List String) :
    (syncLoop runner action repos).2 =
      repos.map (fun p => SyncEvent.run (syncArgsFor action p)) ∧
    (syncLoop runner action repos).1.failCount =
      (repos.filter (fun p => isErr (runner (syncArgsFor action p)))).length ∧
    (syncLoop runner action repos).1.successCount +
      (syncLoop runner action repos).1.failCount = repos.length := by
  unfold syncLoop
  rw [syncLoop_aux]
  refine ⟨by simp, by simp, ?_⟩
  simp only [Nat.zero_add, List.nil_append]
  exact length_filter_split _ repos

/-- Claim C6: any action value that lower-cases to neither "fetch" nor
"pull" is rejected with an invalid-action error before the repository walk,
with an empty side-effect trace (no scan, no subprocess invocation). -/
theorem invalid_action_rejected (runner : List String → Except String String)
    (repos : List String) (syncAction : String)
    (h1 : toLowerGo syncAction ≠ "fetch") (h2 : toLowerGo syncAction ≠ "pull") :
    syncRunE runner repos syncAction =
      (.error ("invalid action \x27" ++ syncAction ++
        "\x27: must be \x27fetch\x27 or \x27pull\x27"), []) := by
  unfold syncRunE
  simp [h1, h2]

/-- Witness for C6 at the action "rebase". -/
theorem invalid_action_rejected_witness :
    syncRunE (fun _ => Except.ok "") ["repo1", "repo2"] "rebase" =
      (.error ("invalid action \x27rebase\x27: must be \x27fetch\x27 or \x27pull\x27"), []) :=
  invalid_action_rejected (fun _ => Except.ok "") ["repo1", "repo2"] "rebase"
    (by decide) (by decide)

/-- Helper: the deletion loop in dry-run mode with an arbitrary starting
accumulator. -/
theorem deletionLoop_dry_aux (runner : List String → Except String String)
    (branches : List String) : ∀ acc : CleanReport,
    branches.foldl (deletionStep runner true) acc =
      ⟨acc.dryRunLines ++
          branches.map (fun b => "[Dry Run] Would attempt to delete branch: " ++ b),
        acc.mutatingCalls, acc.successCount + branches.length, acc.failCount⟩ := by
  induction branches with
  | nil => intro acc; simp
  | cons b rest ih =>
      intro acc
      rw [List.foldl_cons, ih]
      simp [deletionStep, CleanReport.mk.injEq, List.append_assoc]
      omega

/-- Claim C7: with the delete flag and the dry-run flag both set and a
non-empty candidate list, the Branch Cleaner invokes no mutating subprocess
command, emits exactly one would-delete report line per candidate, and
finishes with a non-error summary whose count equals the number of
candidates. -/
theorem dry_run_no_mutation (runner : List String → Except String String)
    (branches : List String) (hne : branches ≠ []) :
    branchCleanAct runner true true branches =
      .processed
        ⟨branches.map (fun b => "[Dry Run] Would attempt to delete branch: " ++ b), [],
          branches.length, 0⟩
        ("Dry run complete. " ++ toString branches.length ++
          " branches would have been targeted for deletion.") := by
  have hlen : (branches.length == 0) = false := by
    cases branches with
    | nil => exact absurd rfl hne
    | cons b t => rfl
  unfold branchCleanAct
  rw [hlen]
  have hloop := deletionLoop_dry_aux runner branches ⟨[], [], 0, 0⟩
  unfold deletionLoop
  simp only [Bool.false_eq_true, if_false, Bool.not_true, hloop, List.nil_append,
    Nat.zero_add, if_true]

/-- Witness for C7 at the candidate list ["feature-a", "feature-b"] with a
runner that would fail every invocation. -/
theorem dry_run_no_mutation_witness :
    branchCleanAct (fun _ => Except.error "boom") true true ["feature-a", "feature-b"] =
      .processed
        ⟨["[Dry Run] Would attempt to delete branch: feature-a",
          "[Dry Run] Would attempt to delete branch: feature-b"], [], 2, 0⟩
        "Dry run complete. 2 branches would have been targeted for deletion." :=
  dry_run_no_mutation (fun _ => Except.error "boom") ["feature-a", "feature-b"] (by decide)

/-- Claim C8: the Command Runner always returns the trimmed captured standard
output; when the subprocess fails it additionally returns an error embedding
the space-joined argument list, the underlying process error, and the full
captured standard-error text, and on success it returns no error. -/
theorem run_git_command_spec (args : List String) (proc : ProcOutcome) :
    runGitCommand args proc =
      (goTrim proc.stdout,
        proc.procErr.map (fun e =>
          "command \x27git " ++ joinSpace args ++ "\x27 failed: " ++ e ++
            "\nStderr: " ++ proc.stderr)) := by
  rcases proc with ⟨o, se, pe⟩
  cases pe <;> rfl

end GitUtil
